import Mathlib

/-!
Shallow embedding of `src/main.py`, the training driver of the
homography-loss camera-relocalization repository, together with theorems
checking the specification's claims about it.

The embedding models:
  * the argparse configuration surface (lines 17-39 of `main.py`),
    in particular the closed `--loss` choice set;
  * the criterion / Adam-epsilon selection chain (lines 82-108);
  * the training loop (lines 122-202) as a structured event trace, with
    explicit state folds for the pose log file and the per-split errors
    dictionary, and exact rational arithmetic for the epoch-loss
    accumulator.

Quantities that the driver receives from collaborators that are not part
of the source tree (the dataset loader, the network, the per-batch loss
values) are abstracted as parameters of the embedding.
-/

namespace Main

/-- The two data splits driven by the epoch loop of `main.py`. -/
inductive Split
  | train
  | test
deriving DecidableEq, Repr

/-- The command-line arguments of `main.py` (argparse, lines 17-39).
`path` is positional; everything else is optional with the listed
defaults.  There is no argument controlling the PoseNet `beta`. -/
structure Args where
  path : String
  loss : String := "local_homography"
  epochs : Nat := 20
  batch_size : Nat := 16
  xmin_percentile : ℚ := 25/1000
  xmax_percentile : ℚ := 975/1000
  weights : Option String := none
  device : String := "cpu"
deriving DecidableEq, Repr

/-- The closed choice set of the `--loss` argument (line 24). -/
def lossChoices : List String :=
  ["local_homography", "global_homography", "posenet", "homoscedastic", "geometric", "dsac"]

/-- Argparse validation of the `--loss` value: a value outside `choices`
makes argparse exit with a configuration error before anything runs. -/
def parseArgs (a : Args) : Except String Args :=
  if a.loss ∈ lossChoices then Except.ok a
  else Except.error ("argument --loss: invalid choice: " ++ a.loss)

/-- The dataset object as consumed by `main.py`.  The dataset classes
live in `datasets.py`, which is not under `src/`; per the spec the
`train_global_*` fields are dataset-wide depth percentiles computed from
the training split at the configured percentiles ("DepthBounds are fixed
dataset-wide percentiles"), so they are held abstract here. -/
structure Dataset where
  train_global_xmin : ℚ
  train_global_xmax : ℚ
deriving DecidableEq, Repr

/-- The six loss criteria, one constructor per branch of the selection
chain at lines 86-103 of `main.py`, each carrying exactly the
constructor arguments that `main.py` passes. -/
inductive Criterion
  | localHomography (device : String)
  | globalHomography (xmin xmax : ℚ) (device : String)
  | poseNet (beta : ℚ)
  | homoscedastic (s_hat_t s_hat_q : ℚ) (device : String)
  | geometric
  | dsac
deriving DecidableEq, Repr

/-- Modelled from the spec: the loss classes live in `losses.py`, which
is not under `src/`.  The spec states that `HomoscedasticLoss` owns two
learned scalars `s_t, s_q` initialised from its constructor arguments,
and that every other loss variant is pure, with no learned parameters
("All are pure with respect to inputs except HomoscedasticLoss, which
also reads/writes its own LossParameters"; "PoseNetLoss: ... no learned
parameters").  `parameters` is the list handed to the optimizer by
`criterion.parameters()`. -/
def Criterion.parameters : Criterion → List ℚ
  | .homoscedastic s_hat_t s_hat_q _ => [s_hat_t, s_hat_q]
  | _ => []

/-- Instantiation of the criterion and of the Adam epsilon
(lines 82-105 of `main.py`).  `eps` starts at the Adam default `1e-8`
and is overwritten to `1e-14` in the two homography branches; the final
`else` is the `raise Exception(f'Loss ... not recognized...')`. -/
def instantiateLoss (loss : String) (dataset : Dataset) (device : String) :
    Except String (Criterion × ℚ) :=
  if loss = "local_homography" then
    Except.ok (.localHomography device, 1/10^14)
  else if loss = "global_homography" then
    Except.ok (.globalHomography dataset.train_global_xmin dataset.train_global_xmax device,
      1/10^14)
  else if loss = "posenet" then
    Except.ok (.poseNet 500, 1/10^8)
  else if loss = "homoscedastic" then
    Except.ok (.homoscedastic 0 (-3) device, 1/10^8)
  else if loss = "geometric" then
    Except.ok (.geometric, 1/10^8)
  else if loss = "dsac" then
    Except.ok (.dsac, 1/10^8)
  else
    Except.error ("Loss " ++ loss ++ " not recognized...")

/-- The model, abstracted: `models.py` is not part of the claims; the
driver only reads its parameter list when building the optimizer. -/
structure Model where
  parameters : List ℚ
deriving DecidableEq, Repr

/-- The single Adam optimizer of line 108, recorded by its constructor
arguments: the concatenated parameter list
`list(model.parameters()) + list(criterion.parameters())`, the learning
rate `lr=1e-4`, and the selected epsilon. -/
structure OptimConfig where
  params : List ℚ
  lr : ℚ
  eps : ℚ
deriving DecidableEq, Repr

/-- The observable events of the training loop (lines 122-202 of
`main.py`), in source order.  Events are tagged with the split, epoch
and batch index they belong to, so that statements about "this batch's"
events can be made about the full run trace.  `openLog m` is
`open(log_file_path, mode=m)`; `saveCkpt` carries the keys of the dict
passed to `torch.save`. -/
inductive Ev
  | openLog (mode : String)
  | writeHeader
  | zeroGrad (epoch batch : Nat)
  | toDevice (split : Split) (epoch batch : Nat)
  | predict (split : Split) (epoch batch : Nat)
  | computeUtils (split : Split) (epoch batch : Nat)
  | lossEval (epoch batch : Nat)
  | backward (epoch batch : Nat)
  | optStep (epoch batch : Nat)
  | errsEval (split : Split) (epoch batch : Nat)
  | logPoses (split : Split) (epoch batch : Nat)
  | addScalarLoss (epoch : Nat) (v : ℚ)
  | logErrs (split : Split) (epoch : Nat)
  | logParams (epoch : Nat)
  | resetErrs (split : Split) (epoch : Nat)
  | saveCkpt (epoch : Nat) (keys : List String)
deriving DecidableEq, Repr

/-- The keys of the checkpoint dict saved at lines 196-200. -/
def ckptKeys : List String :=
  ["model_state_dict", "optimizer_state_dict", "criterion_state_dict"]

/-- One iteration of the train loop (lines 127-157): zero the
gradients, move the batch to the device, predict the pose, run
`batch_compute_utils`, evaluate the criterion, backpropagate, step the
optimizer, run `batch_errors`, then open the pose log in append mode
and write this batch's rows. -/
def trainBatchTrace (e b : Nat) : List Ev :=
  [.zeroGrad e b, .toDevice .train e b, .predict .train e b,
   .computeUtils .train e b, .lossEval e b, .backward e b, .optStep e b,
   .errsEval .train e b, .openLog "a", .logPoses .train e b]

/-- One iteration of the test loop (lines 171-182): move the batch to
the device, predict, run `batch_compute_utils`, open the pose log in
append mode and write the rows, then run `batch_errors`. -/
def testBatchTrace (e b : Nat) : List Ev :=
  [.toDevice .test e b, .predict .test e b, .computeUtils .test e b,
   .openLog "a", .logPoses .test e b, .errsEval .test e b]

/-- The `epoch_loss` accumulator of lines 124 and 149-150: starts at
`0`, and each train batch adds `loss.item() / len(train_loader)`.
`lossVal e b` is the (abstract) scalar loss of batch `b` of epoch `e`;
`nTrain` is `len(train_loader)`. -/
def epochLoss (lossVal : Nat → Nat → ℚ) (nTrain : Nat) (e : Nat) : ℚ :=
  (List.range nTrain).foldl (fun acc b => acc + lossVal e b / nTrain) 0

/-- The events of one epoch (lines 123-200): reset `errors` for the
train split, run the train batches, log the epoch loss and the train
errors, reset `errors` for the test split, run the test batches, log
the test errors and the criterion parameters, and save a checkpoint
when `epoch % 500 == 0 or epoch == args.epochs - 1`. -/
def epochTrace (epochs : Nat) (lossVal : Nat → Nat → ℚ) (nTrain nTest : Nat)
    (e : Nat) : List Ev :=
  [.resetErrs .train e]
    ++ (List.range nTrain).flatMap (trainBatchTrace e)
    ++ [.addScalarLoss e (epochLoss lossVal nTrain e), .logErrs .train e,
        .resetErrs .test e]
    ++ (List.range nTest).flatMap (testBatchTrace e)
    ++ [.logErrs .test e, .logParams e]
    ++ (if e % 500 = 0 ∨ e = epochs - 1 then [.saveCkpt e ckptKeys] else [])

/-- The full event trace of a run: the pose log file is created in
write mode and the header line is written (lines 119-120), then the
epoch loop runs. -/
def runTrace (a : Args) (lossVal : Nat → Nat → ℚ) (nTrain nTest : Nat) : List Ev :=
  [.openLog "w", .writeHeader]
    ++ (List.range a.epochs).flatMap (epochTrace a.epochs lossVal nTrain nTest)

/-- Everything a run determines before/while the loop executes: the
criterion instance constructed at startup, the Adam optimizer
configuration, and the event trace. -/
structure RunOutput where
  criterion : Criterion
  optimizer : OptimConfig
  trace : List Ev
deriving DecidableEq

/-- The driver `main.py` end to end: argparse validation, criterion and
epsilon selection, optimizer construction
(`Adam(list(model.parameters()) + list(criterion.parameters()),
lr=1e-4, eps=eps)`), then the training loop.  A configuration error
(argparse rejection or the unrecognized-loss `raise`) aborts before any
trace event is produced. -/
def mainRun (a : Args) (model : Model) (dataset : Dataset)
    (lossVal : Nat → Nat → ℚ) (nTrain nTest : Nat) : Except String RunOutput := do
  let a ← parseArgs a
  let (criterion, eps) ← instantiateLoss a.loss dataset a.device
  let optimizer : OptimConfig :=
    { params := model.parameters ++ criterion.parameters, lr := 1/10^4, eps := eps }
  Except.ok
    { criterion := criterion, optimizer := optimizer,
      trace := runTrace a lossVal nTrain nTest }

/-- The header line written once to the pose log (line 120). -/
def headerLine : String :=
  "epoch,image_file,type,w_tx_chat,w_ty_chat,w_tz_chat,chat_qw_w,chat_qx_w,chat_qy_w,chat_qz_w"

/-- File-system semantics of the pose log, as a fold over the trace:
opening in mode `"w"` truncates the file, `writeHeader` appends the
header line, `log_poses` appends that batch's rows (`rows sp e b`, the
poses written for batch `b` of epoch `e` of split `sp`); opening in
mode `"a"` and every other event leave the contents unchanged. -/
def fileStep (rows : Split → Nat → Nat → List String) (fs : List String) : Ev → List String
  | .openLog m => if m = "w" then [] else fs
  | .writeHeader => fs ++ [headerLine]
  | .logPoses sp e b => fs ++ rows sp e b
  | _ => fs

/-- The pose-log contents after a list of events has run. -/
def fileContents (rows : Split → Nat → Nat → List String) (tr : List Ev) : List String :=
  tr.foldl (fileStep rows) []

/-- Identity of one `batch_errors` contribution: the records a call at
batch `b` of epoch `e` of split `sp` adds to the `errors` dict. -/
structure ErrTag where
  split : Split
  epoch : Nat
  batch : Nat
deriving DecidableEq, Repr

/-- Semantics of the `errors` dict as a fold over the trace:
`errors = {}` (lines 125 and 169) empties it, `batch_errors` (lines 154
and 182) adds this batch's records, and every other event leaves it
unchanged. -/
def errStep (s : List ErrTag) : Ev → List ErrTag
  | .resetErrs _ _ => []
  | .errsEval sp e b => s ++ [⟨sp, e, b⟩]
  | _ => s

/-- One observation of a `batch_errors` call: which batch it was, and
the accumulator contents passed to it (`pre`). -/
structure ErrObs where
  split : Split
  epoch : Nat
  batch : Nat
  pre : List ErrTag
deriving DecidableEq, Repr

/-- Walks a trace with the `errors`-dict state, recording for every
`batch_errors` call the accumulator contents it receives. -/
def errObs (s : List ErrTag) : List Ev → List ErrObs
  | [] => []
  | ev :: tr =>
    (match ev with
      | .errsEval sp e b => [⟨sp, e, b, s⟩]
      | _ => []) ++ errObs (errStep s ev) tr

/-- Whether an event belongs to batch `b` of epoch `e` of split `sp`.
The untagged events (`zeroGrad`, `lossEval`, `backward`, `optStep`) are
emitted only inside train iterations and belong to the train split. -/
def Ev.ofBatch (sp : Split) (e b : Nat) : Ev → Bool
  | .zeroGrad e' b' => decide (sp = .train ∧ e' = e ∧ b' = b)
  | .toDevice sp' e' b' => decide (sp' = sp ∧ e' = e ∧ b' = b)
  | .predict sp' e' b' => decide (sp' = sp ∧ e' = e ∧ b' = b)
  | .computeUtils sp' e' b' => decide (sp' = sp ∧ e' = e ∧ b' = b)
  | .lossEval e' b' => decide (sp = .train ∧ e' = e ∧ b' = b)
  | .backward e' b' => decide (sp = .train ∧ e' = e ∧ b' = b)
  | .optStep e' b' => decide (sp = .train ∧ e' = e ∧ b' = b)
  | .errsEval sp' e' b' => decide (sp' = sp ∧ e' = e ∧ b' = b)
  | .logPoses sp' e' b' => decide (sp' = sp ∧ e' = e ∧ b' = b)
  | _ => false

/-- Whether an event is the pose-log write of batch `b` of epoch `e`
of split `sp`. -/
def isPoseWrite (sp : Split) (e b : Nat) : Ev → Bool
  | .logPoses sp' e' b' => decide (sp' = sp ∧ e' = e ∧ b' = b)
  | _ => false

/-- Whether an event is the `writer.add_scalar('train loss', ...)`
emission of epoch `e` (line 160), with any value. -/
def isLossScalar (e : Nat) : Ev → Bool
  | .addScalarLoss e' _ => decide (e' = e)
  | _ => false

/-- C2: a loss-configuration value outside
`{local_homography, global_homography, posenet, homoscedastic,
geometric, dsac}` makes the program fail with a configuration error
before any training step (no trace is produced at all), and every value
inside the set constructs exactly the one corresponding criterion. -/
theorem claim_C2 (a : Args) (model : Model) (dataset : Dataset)
    (lossVal : Nat → Nat → ℚ) (nTrain nTest : Nat) :
    (a.loss ∉ lossChoices →
      ∃ msg, mainRun a model dataset lossVal nTrain nTest = Except.error msg)
    ∧ (a.loss ∈ lossChoices →
      ∃ out, mainRun a model dataset lossVal nTrain nTest = Except.ok out
        ∧ (a.loss = "local_homography" → out.criterion = .localHomography a.device)
        ∧ (a.loss = "global_homography" → out.criterion =
            .globalHomography dataset.train_global_xmin dataset.train_global_xmax a.device)
        ∧ (a.loss = "posenet" → out.criterion = .poseNet 500)
        ∧ (a.loss = "homoscedastic" → out.criterion = .homoscedastic 0 (-3) a.device)
        ∧ (a.loss = "geometric" → out.criterion = .geometric)
        ∧ (a.loss = "dsac" → out.criterion = .dsac)) := by
  constructor
  · intro h
    refine ⟨"argument --loss: invalid choice: " ++ a.loss, ?_⟩
    simp [mainRun, parseArgs, h, Bind.bind, Except.bind]
  · intro h
    simp only [lossChoices, List.mem_cons, List.mem_singleton, List.not_mem_nil, or_false] at h
    rcases h with h | h | h | h | h | h
    · refine ⟨⟨.localHomography a.device, ⟨model.parameters ++ [], 1/10^4, 1/10^14⟩,
        runTrace a lossVal nTrain nTest⟩, ?_, ?_, ?_, ?_, ?_, ?_, ?_⟩ <;>
        simp [mainRun, parseArgs, instantiateLoss, h, lossChoices, Bind.bind, Except.bind,
          Criterion.parameters]
    · refine ⟨⟨.globalHomography dataset.train_global_xmin dataset.train_global_xmax a.device,
        ⟨model.parameters ++ [], 1/10^4, 1/10^14⟩,
        runTrace a lossVal nTrain nTest⟩, ?_, ?_, ?_, ?_, ?_, ?_, ?_⟩ <;>
        simp [mainRun, parseArgs, instantiateLoss, h, lossChoices, Bind.bind, Except.bind,
          Criterion.parameters]
    · refine ⟨⟨.poseNet 500, ⟨model.parameters ++ [], 1/10^4, 1/10^8⟩,
        runTrace a lossVal nTrain nTest⟩, ?_, ?_, ?_, ?_, ?_, ?_, ?_⟩ <;>
        simp [mainRun, parseArgs, instantiateLoss, h, lossChoices, Bind.bind, Except.bind,
          Criterion.parameters]
    · refine ⟨⟨.homoscedastic 0 (-3) a.device, ⟨model.parameters ++ [0, -3], 1/10^4, 1/10^8⟩,
        runTrace a lossVal nTrain nTest⟩, ?_, ?_, ?_, ?_, ?_, ?_, ?_⟩ <;>
        simp [mainRun, parseArgs, instantiateLoss, h, lossChoices, Bind.bind, Except.bind,
          Criterion.parameters]
    · refine ⟨⟨.geometric, ⟨model.parameters ++ [], 1/10^4, 1/10^8⟩,
        runTrace a lossVal nTrain nTest⟩, ?_, ?_, ?_, ?_, ?_, ?_, ?_⟩ <;>
        simp [mainRun, parseArgs, instantiateLoss, h, lossChoices, Bind.bind, Except.bind,
          Criterion.parameters]
    · refine ⟨⟨.dsac, ⟨model.parameters ++ [], 1/10^4, 1/10^8⟩,
        runTrace a lossVal nTrain nTest⟩, ?_, ?_, ?_, ?_, ?_, ?_, ?_⟩ <;>
        simp [mainRun, parseArgs, instantiateLoss, h, lossChoices, Bind.bind, Except.bind,
          Criterion.parameters]

/-- Witness for C2: the concrete value `"bogus"` is rejected with a
configuration error, and the concrete value `"posenet"` yields a run. -/
theorem claim_C2_witness :
    (∃ msg, mainRun ⟨"/data/scene", "bogus", 1, 1, 0, 1, none, "cpu"⟩ ⟨[]⟩ ⟨1, 2⟩
        (fun _ _ => 0) 1 1 = Except.error msg)
    ∧ (∃ out, mainRun ⟨"/data/scene", "posenet", 1, 1, 0, 1, none, "cpu"⟩ ⟨[]⟩ ⟨1, 2⟩
        (fun _ _ => 0) 1 1 = Except.ok out) := by
  constructor
  · exact (claim_C2 ⟨"/data/scene", "bogus", 1, 1, 0, 1, none, "cpu"⟩ ⟨[]⟩ ⟨1, 2⟩
      (fun _ _ => 0) 1 1).1 (by simp [lossChoices])
  · obtain ⟨out, hout, -⟩ := (claim_C2 ⟨"/data/scene", "posenet", 1, 1, 0, 1, none, "cpu"⟩
      ⟨[]⟩ ⟨1, 2⟩ (fun _ _ => 0) 1 1).2 (by simp [lossChoices])
    exact ⟨out, hout⟩

/-- C6: selecting the homoscedastic loss constructs
`HomoscedasticLoss(s_hat_t=0.0, s_hat_q=-3.0)`, whose two learned
scalars are therefore initialised to `0` and `-3`, and the single Adam
optimizer is built over `model.parameters() + criterion.parameters()`,
so the criterion's scalars sit in the same optimizer as the model
weights. -/
theorem claim_C6 (a : Args) (model : Model) (dataset : Dataset)
    (lossVal : Nat → Nat → ℚ) (nTrain nTest : Nat)
    (h : a.loss = "homoscedastic") :
    ∃ out, mainRun a model dataset lossVal nTrain nTest = Except.ok out
      ∧ out.criterion = .homoscedastic 0 (-3) a.device
      ∧ Criterion.parameters out.criterion = [0, -3]
      ∧ out.optimizer.params = model.parameters ++ Criterion.parameters out.criterion := by
  refine ⟨⟨.homoscedastic 0 (-3) a.device,
    ⟨model.parameters ++ [0, -3], 1/10^4, 1/10^8⟩,
    runTrace a lossVal nTrain nTest⟩, ?_, rfl, rfl, rfl⟩
  simp [mainRun, parseArgs, instantiateLoss, h, lossChoices, Bind.bind, Except.bind,
    Criterion.parameters]

/-- Witness for C6 at a concrete configuration. -/
theorem claim_C6_witness :
    ∃ out, mainRun ⟨"/data/scene", "homoscedastic", 2, 4, 0, 1, none, "cpu"⟩ ⟨[7]⟩ ⟨1, 2⟩
        (fun _ _ => 0) 1 1 = Except.ok out
      ∧ out.criterion = .homoscedastic 0 (-3) "cpu"
      ∧ Criterion.parameters out.criterion = [0, -3]
      ∧ out.optimizer.params = [7] ++ Criterion.parameters out.criterion :=
  claim_C6 ⟨"/data/scene", "homoscedastic", 2, 4, 0, 1, none, "cpu"⟩ ⟨[7]⟩ ⟨1, 2⟩
    (fun _ _ => 0) 1 1 rfl

/-- C7 counterexample: β is not determined by the user's configuration.
Two runs whose configurations differ in every user-settable field, and
in which no user-supplied value equals `500`, both construct
`PoseNetLoss(beta=500)`: β is the hardcoded constant of line 97, not a
configuration value. -/
theorem claim_C7_counterexample :
    ∃ out₁ out₂,
      mainRun ⟨"/data/KingsCollege", "posenet", 20, 16, 25/1000, 975/1000, none, "cpu"⟩
        ⟨[1]⟩ ⟨1, 2⟩ (fun _ _ => 0) 3 2 = Except.ok out₁
      ∧ mainRun ⟨"/data/chess", "posenet", 7, 3, 1/10, 9/10, some "w.pth", "cuda"⟩
        ⟨[2, 3]⟩ ⟨4, 5⟩ (fun _ _ => 1) 7 5 = Except.ok out₂
      ∧ out₁.criterion = .poseNet 500 ∧ out₂.criterion = .poseNet 500
      ∧ (20 : Nat) ≠ 500 ∧ (16 : Nat) ≠ 500 ∧ (25/1000 : ℚ) ≠ 500 ∧ (975/1000 : ℚ) ≠ 500
      ∧ (7 : Nat) ≠ 500 ∧ (3 : Nat) ≠ 500 ∧ (1/10 : ℚ) ≠ 500 ∧ (9/10 : ℚ) ≠ 500 := by
  refine ⟨⟨.poseNet 500, ⟨[1], 1/10^4, 1/10^8⟩,
      runTrace ⟨"/data/KingsCollege", "posenet", 20, 16, 25/1000, 975/1000, none, "cpu"⟩
        (fun _ _ => 0) 3 2⟩,
    ⟨.poseNet 500, ⟨[2, 3], 1/10^4, 1/10^8⟩,
      runTrace ⟨"/data/chess", "posenet", 7, 3, 1/10, 9/10, some "w.pth", "cuda"⟩
        (fun _ _ => 1) 7 5⟩, ?_, ?_, rfl, rfl, ?_⟩
  · simp [mainRun, parseArgs, instantiateLoss, lossChoices, Bind.bind, Except.bind,
      Criterion.parameters]
  · simp [mainRun, parseArgs, instantiateLoss, lossChoices, Bind.bind, Except.bind,
      Criterion.parameters]
  · norm_num

/-- C7 amended: when the posenet loss is selected, the β used in
PoseNetLoss is always the hardcoded constant `500` (line 97); it is the
same for every user configuration, since no command-line argument
exposes it. -/
theorem claim_C7_amended (a : Args) (model : Model) (dataset : Dataset)
    (lossVal : Nat → Nat → ℚ) (nTrain nTest : Nat)
    (h : a.loss = "posenet") :
    ∃ out, mainRun a model dataset lossVal nTrain nTest = Except.ok out
      ∧ out.criterion = .poseNet 500 := by
  refine ⟨⟨.poseNet 500, ⟨model.parameters ++ [], 1/10^4, 1/10^8⟩,
    runTrace a lossVal nTrain nTest⟩, ?_, rfl⟩
  simp [mainRun, parseArgs, instantiateLoss, h, lossChoices, Bind.bind, Except.bind,
    Criterion.parameters]

/-- Witness for the amended C7 at a concrete configuration. -/
theorem claim_C7_amended_witness :
    ∃ out, mainRun ⟨"/data/scene", "posenet", 2, 4, 0, 1, none, "cpu"⟩ ⟨[7]⟩ ⟨1, 2⟩
        (fun _ _ => 0) 1 1 = Except.ok out
      ∧ out.criterion = .poseNet 500 :=
  claim_C7_amended ⟨"/data/scene", "posenet", 2, 4, 0, 1, none, "cpu"⟩ ⟨[7]⟩ ⟨1, 2⟩
    (fun _ _ => 0) 1 1 rfl

/-- C8: selecting the global homography loss constructs, once at
startup, `GlobalHomographyLoss(xmin=dataset.train_global_xmin,
xmax=dataset.train_global_xmax)` — the dataset-wide bounds of the
training data, not per-image bounds — and the criterion carries no
learned parameters, so the optimizer leaves it unchanged and the bounds
stay fixed for the whole run. -/
theorem claim_C8 (a : Args) (model : Model) (dataset : Dataset)
    (lossVal : Nat → Nat → ℚ) (nTrain nTest : Nat)
    (h : a.loss = "global_homography") :
    ∃ out, mainRun a model dataset lossVal nTrain nTest = Except.ok out
      ∧ out.criterion =
          .globalHomography dataset.train_global_xmin dataset.train_global_xmax a.device
      ∧ Criterion.parameters out.criterion = []
      ∧ out.optimizer.params = model.parameters := by
  refine ⟨⟨.globalHomography dataset.train_global_xmin dataset.train_global_xmax a.device,
    ⟨model.parameters ++ [], 1/10^4, 1/10^14⟩,
    runTrace a lossVal nTrain nTest⟩, ?_, rfl, rfl, by simp⟩
  simp [mainRun, parseArgs, instantiateLoss, h, lossChoices, Bind.bind, Except.bind,
    Criterion.parameters]

/-- Witness for C8 at a concrete configuration. -/
theorem claim_C8_witness :
    ∃ out, mainRun ⟨"/data/scene", "global_homography", 2, 4, 0, 1, none, "cpu"⟩ ⟨[7]⟩
        ⟨3, 9⟩ (fun _ _ => 0) 1 1 = Except.ok out
      ∧ out.criterion = .globalHomography 3 9 "cpu"
      ∧ Criterion.parameters out.criterion = []
      ∧ out.optimizer.params = [7] :=
  claim_C8 ⟨"/data/scene", "global_homography", 2, 4, 0, 1, none, "cpu"⟩ ⟨[7]⟩ ⟨3, 9⟩
    (fun _ _ => 0) 1 1 rfl

/-- C10: for every accepted loss value the optimizer learning rate is
`1e-4`, and the Adam epsilon is `1e-14` exactly for the two homography
losses and the default `1e-8` for every other loss. -/
theorem claim_C10 (a : Args) (model : Model) (dataset : Dataset)
    (lossVal : Nat → Nat → ℚ) (nTrain nTest : Nat)
    (h : a.loss ∈ lossChoices) :
    ∃ out, mainRun a model dataset lossVal nTrain nTest = Except.ok out
      ∧ out.optimizer.lr = 1/10^4
      ∧ out.optimizer.eps =
          (if a.loss = "local_homography" ∨ a.loss = "global_homography"
            then (1 : ℚ)/10^14 else 1/10^8) := by
  simp only [lossChoices, List.mem_cons, List.mem_singleton, List.not_mem_nil, or_false] at h
  rcases h with h | h | h | h | h | h
  · refine ⟨⟨.localHomography a.device, ⟨model.parameters ++ [], 1/10^4, 1/10^14⟩,
      runTrace a lossVal nTrain nTest⟩, ?_, rfl, ?_⟩ <;>
      simp [mainRun, parseArgs, instantiateLoss, h, lossChoices, Bind.bind, Except.bind,
        Criterion.parameters]
  · refine ⟨⟨.globalHomography dataset.train_global_xmin dataset.train_global_xmax a.device,
      ⟨model.parameters ++ [], 1/10^4, 1/10^14⟩,
      runTrace a lossVal nTrain nTest⟩, ?_, rfl, ?_⟩ <;>
      simp [mainRun, parseArgs, instantiateLoss, h, lossChoices, Bind.bind, Except.bind,
        Criterion.parameters]
  · refine ⟨⟨.poseNet 500, ⟨model.parameters ++ [], 1/10^4, 1/10^8⟩,
      runTrace a lossVal nTrain nTest⟩, ?_, rfl, ?_⟩ <;>
      simp [mainRun, parseArgs, instantiateLoss, h, lossChoices, Bind.bind, Except.bind,
        Criterion.parameters]
  · refine ⟨⟨.homoscedastic 0 (-3) a.device, ⟨model.parameters ++ [0, -3], 1/10^4, 1/10^8⟩,
      runTrace a lossVal nTrain nTest⟩, ?_, rfl, ?_⟩ <;>
      simp [mainRun, parseArgs, instantiateLoss, h, lossChoices, Bind.bind, Except.bind,
        Criterion.parameters]
  · refine ⟨⟨.geometric, ⟨model.parameters ++ [], 1/10^4, 1/10^8⟩,
      runTrace a lossVal nTrain nTest⟩, ?_, rfl, ?_⟩ <;>
      simp [mainRun, parseArgs, instantiateLoss, h, lossChoices, Bind.bind, Except.bind,
        Criterion.parameters]
  · refine ⟨⟨.dsac, ⟨model.parameters ++ [], 1/10^4, 1/10^8⟩,
      runTrace a lossVal nTrain nTest⟩, ?_, rfl, ?_⟩ <;>
      simp [mainRun, parseArgs, instantiateLoss, h, lossChoices, Bind.bind, Except.bind,
        Criterion.parameters]

/-- C3: a checkpoint bundle with exactly the keys `model_state_dict`,
`optimizer_state_dict` and `criterion_state_dict` is saved at epoch `e`
if and only if `e` is an executed epoch that is a multiple of 500 or is
the final epoch `epochs - 1`; any checkpoint event in the trace carries
exactly those keys. -/
theorem claim_C3 (a : Args) (lossVal : Nat → Nat → ℚ) (nTrain nTest e : Nat) :
    ((Ev.saveCkpt e ckptKeys) ∈ runTrace a lossVal nTrain nTest ↔
      e < a.epochs ∧ (e % 500 = 0 ∨ e = a.epochs - 1))
    ∧ (∀ keys, (Ev.saveCkpt e keys) ∈ runTrace a lossVal nTrain nTest → keys = ckptKeys) := by
  constructor
  · simp [runTrace, epochTrace, trainBatchTrace, testBatchTrace]
  · intro keys hk
    simp [runTrace, epochTrace, trainBatchTrace, testBatchTrace] at hk
    obtain ⟨e2, -, -, -, hkeys⟩ := hk
    exact hkeys

/-- Witness for C3: in a one-epoch run the checkpoint of epoch 0 is in
the trace (0 is a multiple of 500 and the final epoch), with exactly
the three state-dict keys. -/
theorem claim_C3_witness :
    (Ev.saveCkpt 0 ckptKeys) ∈
        runTrace ⟨"/data/scene", "posenet", 1, 1, 0, 1, none, "cpu"⟩ (fun _ _ => 0) 1 1
      ∧ ckptKeys = ckptKeys := by
  have h := (claim_C3 ⟨"/data/scene", "posenet", 1, 1, 0, 1, none, "cpu"⟩
    (fun _ _ => 0) 1 1 0).1.mpr ⟨by decide, Or.inl (by decide)⟩
  exact ⟨h, (claim_C3 ⟨"/data/scene", "posenet", 1, 1, 0, 1, none, "cpu"⟩
    (fun _ _ => 0) 1 1 0).2 ckptKeys h⟩

/-- Folding `acc + f b / n` over a list sums the divided values. -/
theorem foldl_add_div (l : List Nat) (f : Nat → ℚ) (n : ℚ) :
    ∀ s : ℚ, l.foldl (fun acc b => acc + f b / n) s = s + (l.map f).sum / n := by
  induction l with
  | nil => intro s; simp
  | cons hd tl ih =>
    intro s
    simp only [List.foldl_cons, List.map_cons, List.sum_cons]
    rw [ih]
    ring

/-- `countP` distributes over `flatMap`. -/
theorem countP_flatMap (p : Ev → Bool) (l : List Nat) (f : Nat → List Ev) :
    (l.flatMap f).countP p = (l.map (fun x => (f x).countP p)).sum := by
  induction l with
  | nil => simp
  | cons hd tl ih => simp [List.flatMap_cons, List.countP_append, ih]

/-- The trace of epoch `e'` contains exactly one `train loss` scalar
emission for epoch `e` when `e' = e`, and none otherwise. -/
theorem countP_epochTrace (E : Nat) (lossVal : Nat → Nat → ℚ) (nTrain nTest e e' : Nat) :
    (epochTrace E lossVal nTrain nTest e').countP (isLossScalar e) =
      if e' = e then 1 else 0 := by
  simp only [epochTrace, List.countP_append, countP_flatMap]
  have h1 : ∀ b, (trainBatchTrace e' b).countP (isLossScalar e) = 0 := by
    intro b; simp [trainBatchTrace, List.countP_cons, isLossScalar]
  have h2 : ∀ b, (testBatchTrace e' b).countP (isLossScalar e) = 0 := by
    intro b; simp [testBatchTrace, List.countP_cons, isLossScalar]
  simp [h1, h2, List.countP_cons, isLossScalar]

/-- Summing the indicator of `e` over `range E`. -/
theorem sum_ite_range (E e : Nat) :
    ((List.range E).map (fun e' => if e' = e then 1 else 0)).sum =
      if e < E then 1 else 0 := by
  induction E with
  | zero => simp
  | succ E ih =>
    rw [List.range_succ]
    simp only [List.map_append, List.sum_append, ih, List.map_cons, List.map_nil,
      List.sum_cons, List.sum_nil]
    by_cases h : E = e
    · subst h
      simp [Nat.lt_irrefl, Nat.lt_succ_iff]
    · by_cases h2 : e < E
      · have h3 : e < E + 1 := Nat.lt_succ_of_lt h2
        simp [h, h2, h3]
      · have h3 : ¬ e < E + 1 := by omega
        simp [h, h2, h3]

/-- C9: the `epoch_loss` accumulator — built by adding
`loss / len(train_loader)` for each train batch — equals the arithmetic
mean of the per-batch losses, its scalar is emitted exactly once per
executed epoch, and the emitted value is that mean. -/
theorem claim_C9 (a : Args) (lossVal : Nat → Nat → ℚ) (nTrain nTest e : Nat)
    (h : e < a.epochs) :
    epochLoss lossVal nTrain e = ((List.range nTrain).map (lossVal e)).sum / nTrain
    ∧ (runTrace a lossVal nTrain nTest).countP (isLossScalar e) = 1
    ∧ Ev.addScalarLoss e (((List.range nTrain).map (lossVal e)).sum / nTrain)
        ∈ runTrace a lossVal nTrain nTest := by
  have hmean : epochLoss lossVal nTrain e =
      ((List.range nTrain).map (lossVal e)).sum / nTrain := by
    unfold epochLoss
    rw [foldl_add_div]
    simp
  refine ⟨hmean, ?_, ?_⟩
  · simp only [runTrace, List.countP_append, countP_flatMap]
    simp [countP_epochTrace, sum_ite_range, h, List.countP_cons, isLossScalar]
  · rw [← hmean]
    simp [runTrace, epochTrace, trainBatchTrace, testBatchTrace]
    exact ⟨e, h, rfl, rfl⟩

/-- Witness for C9: in a concrete one-epoch run with two train batches
of loss 3, exactly one `train loss` scalar is emitted for epoch 0. -/
theorem claim_C9_witness :
    (runTrace ⟨"/data/scene", "posenet", 1, 1, 0, 1, none, "cpu"⟩ (fun _ _ => 3) 2 1).countP
      (isLossScalar 0) = 1 :=
  (claim_C9 ⟨"/data/scene", "posenet", 1, 1, 0, 1, none, "cpu"⟩ (fun _ _ => 3) 2 1 0
    (by decide)).2.1

/-- Witness for C10 at a concrete configuration (a homography loss, so
epsilon is `1e-14`). -/
theorem claim_C10_witness :
    ∃ out, mainRun ⟨"/data/scene", "local_homography", 2, 4, 0, 1, none, "cpu"⟩ ⟨[7]⟩
        ⟨3, 9⟩ (fun _ _ => 0) 1 1 = Except.ok out
      ∧ out.optimizer.lr = 1/10^4
      ∧ out.optimizer.eps =
          (if ("local_homography" : String) = "local_homography"
              ∨ ("local_homography" : String) = "global_homography"
            then (1 : ℚ)/10^14 else 1/10^8) :=
  claim_C10 ⟨"/data/scene", "local_homography", 2, 4, 0, 1, none, "cpu"⟩ ⟨[7]⟩ ⟨3, 9⟩
    (fun _ _ => 0) 1 1 (by simp [lossChoices])

theorem errObs_append (l₁ l₂ : List Ev) :
    ∀ s, errObs s (l₁ ++ l₂) = errObs s l₁ ++ errObs (l₁.foldl errStep s) l₂ := by
  induction l₁ with
  | nil => intro s; simp [errObs]
  | cons hd tl ih =>
    intro s
    simp only [List.cons_append, errObs, List.foldl_cons, List.append_eq]
    rw [ih]
    simp [List.append_assoc]

theorem errObs_trainBatch (e b : Nat) (s : List ErrTag) :
    errObs s (trainBatchTrace e b) = [⟨.train, e, b, s⟩] := rfl

theorem errStep_trainBatch (e b : Nat) (s : List ErrTag) :
    (trainBatchTrace e b).foldl errStep s = s ++ [⟨.train, e, b⟩] := rfl

theorem errObs_testBatch (e b : Nat) (s : List ErrTag) :
    errObs s (testBatchTrace e b) = [⟨.test, e, b, s⟩] := rfl

theorem errStep_testBatch (e b : Nat) (s : List ErrTag) :
    (testBatchTrace e b).foldl errStep s = s ++ [⟨.test, e, b⟩] := rfl

theorem errObs_batches (sp : Split) (bt : Nat → List Ev) (e : Nat)
    (hobs : ∀ b s, errObs s (bt b) = [⟨sp, e, b, s⟩])
    (hst : ∀ b s, (bt b).foldl errStep s = s ++ [⟨sp, e, b⟩]) :
    ∀ n : Nat,
      errObs [] ((List.range n).flatMap bt) =
        (List.range n).map (fun b => ⟨sp, e, b, (List.range b).map (fun b' => ⟨sp, e, b'⟩)⟩)
      ∧ ((List.range n).flatMap bt).foldl errStep [] =
        (List.range n).map (fun b => ⟨sp, e, b⟩) := by
  intro n
  induction n with
  | zero => simp [errObs]
  | succ n ih =>
    rw [List.range_succ]
    simp only [List.flatMap_append, List.flatMap_cons, List.flatMap_nil, List.append_nil,
      List.map_append, List.map_cons, List.map_nil]
    rw [errObs_append, ih.1, ih.2, List.foldl_append, ih.2, hobs, hst]
    exact ⟨rfl, rfl⟩

theorem errObs_trainFlat (e n : Nat) :
    errObs [] ((List.range n).flatMap (trainBatchTrace e)) =
      (List.range n).map
        (fun b => ⟨.train, e, b, (List.range b).map (fun b' => ⟨.train, e, b'⟩)⟩) :=
  (errObs_batches .train (trainBatchTrace e) e (errObs_trainBatch e) (errStep_trainBatch e) n).1

theorem errStep_trainFlat (e n : Nat) :
    ((List.range n).flatMap (trainBatchTrace e)).foldl errStep [] =
      (List.range n).map (fun b => ⟨.train, e, b⟩) :=
  (errObs_batches .train (trainBatchTrace e) e (errObs_trainBatch e) (errStep_trainBatch e) n).2

theorem errObs_testFlat (e n : Nat) :
    errObs [] ((List.range n).flatMap (testBatchTrace e)) =
      (List.range n).map
        (fun b => ⟨.test, e, b, (List.range b).map (fun b' => ⟨.test, e, b'⟩)⟩) :=
  (errObs_batches .test (testBatchTrace e) e (errObs_testBatch e) (errStep_testBatch e) n).1

theorem errStep_testFlat (e n : Nat) :
    ((List.range n).flatMap (testBatchTrace e)).foldl errStep [] =
      (List.range n).map (fun b => ⟨.test, e, b⟩) :=
  (errObs_batches .test (testBatchTrace e) e (errObs_testBatch e) (errStep_testBatch e) n).2

theorem errObs_reset (sp : Split) (e : Nat) (s : List ErrTag) :
    errObs s [Ev.resetErrs sp e] = [] := rfl

theorem errStep_reset (sp : Split) (e : Nat) (s : List ErrTag) :
    List.foldl errStep s [Ev.resetErrs sp e] = [] := rfl

theorem errObs_mid (e : Nat) (v : ℚ) (s : List ErrTag) :
    errObs s [Ev.addScalarLoss e v, Ev.logErrs .train e, Ev.resetErrs .test e] = [] := rfl

theorem errStep_mid (e : Nat) (v : ℚ) (s : List ErrTag) :
    List.foldl errStep s [Ev.addScalarLoss e v, Ev.logErrs .train e, Ev.resetErrs .test e] = [] :=
  rfl

theorem errObs_tail (e : Nat) (s : List ErrTag) :
    errObs s [Ev.logErrs .test e, Ev.logParams e] = [] := rfl

theorem errStep_tail (e : Nat) (s : List ErrTag) :
    List.foldl errStep s [Ev.logErrs .test e, Ev.logParams e] = s := rfl

theorem errObs_ite (c : Prop) [Decidable c] (e : Nat) (k : List String) (s : List ErrTag) :
    errObs s (if c then [Ev.saveCkpt e k] else []) = [] := by
  split <;> rfl

theorem errObs_epochTrace (E : Nat) (lv : Nat → Nat → ℚ) (nTr nTe e : Nat) (s : List ErrTag) :
    errObs s (epochTrace E lv nTr nTe e) =
      (List.range nTr).map
        (fun b => ⟨.train, e, b, (List.range b).map (fun b' => ⟨.train, e, b'⟩)⟩)
      ++ (List.range nTe).map
        (fun b => ⟨.test, e, b, (List.range b).map (fun b' => ⟨.test, e, b'⟩)⟩) := by
  unfold epochTrace
  simp only [errObs_append, List.foldl_append, errObs_reset, errStep_reset, errObs_mid,
    errStep_mid, errObs_tail, errStep_tail, errObs_ite, errObs_trainFlat, errStep_trainFlat,
    errObs_testFlat, errStep_testFlat, List.append_nil, List.nil_append]

theorem errObs_flatMap_epochs (E : Nat) (lv : Nat → Nat → ℚ) (nTr nTe : Nat) :
    ∀ (es : List Nat) (s : List ErrTag),
      errObs s (es.flatMap (epochTrace E lv nTr nTe)) =
        es.flatMap (fun e =>
          (List.range nTr).map
            (fun b => ⟨.train, e, b, (List.range b).map (fun b' => ⟨.train, e, b'⟩)⟩)
          ++ (List.range nTe).map
            (fun b => ⟨.test, e, b, (List.range b).map (fun b' => ⟨.test, e, b'⟩)⟩)) := by
  intro es
  induction es with
  | nil => intro s; rfl
  | cons e es ih =>
    intro s
    simp only [List.flatMap_cons, errObs_append, errObs_epochTrace, ih]

theorem errObs_runTrace (a : Args) (lv : Nat → Nat → ℚ) (nTr nTe : Nat) :
    errObs [] (runTrace a lv nTr nTe) =
      (List.range a.epochs).flatMap (fun e =>
        (List.range nTr).map
          (fun b => ⟨.train, e, b, (List.range b).map (fun b' => ⟨.train, e, b'⟩)⟩)
        ++ (List.range nTe).map
          (fun b => ⟨.test, e, b, (List.range b).map (fun b' => ⟨.test, e, b'⟩)⟩)) := by
  unfold runTrace
  rw [show errObs [] ([Ev.openLog "w", Ev.writeHeader] ++
      (List.range a.epochs).flatMap (epochTrace a.epochs lv nTr nTe)) =
    errObs [] ((List.range a.epochs).flatMap (epochTrace a.epochs lv nTr nTe)) from rfl]
  exact errObs_flatMap_epochs a.epochs lv nTr nTe (List.range a.epochs) []

/-- C5: the accumulator passed to `batch_errors` at batch `b` of a
split of an epoch contains exactly the records of batches `0..b-1` of
the same split of the same epoch — in particular it is empty at the
start of each epoch's train split and again at the start of its test
split, and no record of one split or epoch is ever visible in the
accumulation of another. -/
theorem claim_C5 (a : Args) (lossVal : Nat → Nat → ℚ) (nTrain nTest : Nat) :
    ∀ o ∈ errObs [] (runTrace a lossVal nTrain nTest),
      o.pre = (List.range o.batch).map (fun b' => ⟨o.split, o.epoch, b'⟩) := by
  rw [errObs_runTrace]
  intro o ho
  simp only [List.mem_flatMap, List.mem_range, List.mem_append, List.mem_map] at ho
  obtain ⟨e, -, h⟩ := ho
  rcases h with ⟨b, -, rfl⟩ | ⟨b, -, rfl⟩ <;> rfl

/-- Witness for C5: in a concrete one-epoch run, the test-split
`batch_errors` call of batch 0 receives an empty accumulator. -/
theorem claim_C5_witness :
    (⟨.test, 0, 0, []⟩ : ErrObs) ∈
        errObs [] (runTrace ⟨"/data/scene", "posenet", 1, 1, 0, 1, none, "cpu"⟩
          (fun _ _ => 0) 1 1)
      ∧ ([] : List ErrTag) = (List.range 0).map (fun b' => ⟨Split.test, 0, b'⟩) := by
  have hmem : (⟨.test, 0, 0, []⟩ : ErrObs) ∈
      errObs [] (runTrace ⟨"/data/scene", "posenet", 1, 1, 0, 1, none, "cpu"⟩
        (fun _ _ => 0) 1 1) := by
    rw [errObs_runTrace]
    decide
  exact ⟨hmem, claim_C5 ⟨"/data/scene", "posenet", 1, 1, 0, 1, none, "cpu"⟩
    (fun _ _ => 0) 1 1 ⟨.test, 0, 0, []⟩ hmem⟩

theorem flatMap_nil_of_forall (l : List Nat) (g : Nat → List Ev)
    (h : ∀ x ∈ l, g x = []) : l.flatMap g = [] := by
  induction l with
  | nil => rfl
  | cons hd tl ih =>
    rw [List.flatMap_cons, h hd (List.mem_cons_self hd tl), List.nil_append]
    exact ih (fun x hx => h x (List.mem_cons_of_mem hd hx))

theorem flatMap_eq_of_single (l : List Nat) (g : Nat → List Ev) (b : Nat)
    (hmem : b ∈ l) (hnd : l.Nodup)
    (hother : ∀ b' ∈ l, b' ≠ b → g b' = []) : l.flatMap g = g b := by
  induction l with
  | nil => cases hmem
  | cons hd tl ih =>
    obtain ⟨hnotmem, hndtl⟩ := List.nodup_cons.mp hnd
    rcases List.mem_cons.mp hmem with rfl | hmem'
    · rw [List.flatMap_cons,
        flatMap_nil_of_forall tl g
          (fun x hx => hother x (List.mem_cons_of_mem _ hx) (fun hc => hnotmem (hc ▸ hx))),
        List.append_nil]
    · have hne : hd ≠ b := fun hc => hnotmem (hc ▸ hmem')
      rw [List.flatMap_cons, hother hd (List.mem_cons_self hd tl) hne, List.nil_append]
      exact ih hmem' hndtl (fun b' hb' => hother b' (List.mem_cons_of_mem hd hb'))


theorem filter_trainBatch_eq (e b : Nat) :
    (trainBatchTrace e b).filter (Ev.ofBatch .train e b) =
      [.zeroGrad e b, .toDevice .train e b, .predict .train e b, .computeUtils .train e b,
       .lossEval e b, .backward e b, .optStep e b, .errsEval .train e b,
       .logPoses .train e b] := by
  simp [trainBatchTrace, List.filter_cons, Ev.ofBatch]

theorem filter_trainBatch_ne (sp : Split) (e b e' b' : Nat)
    (h : ¬(sp = .train ∧ e' = e ∧ b' = b)) :
    (trainBatchTrace e' b').filter (Ev.ofBatch sp e b) = [] := by
  cases sp
  · have h' : ¬(e' = e ∧ b' = b) := fun hc => h ⟨rfl, hc⟩
    simp [trainBatchTrace, List.filter_cons, Ev.ofBatch, h']
  · simp [trainBatchTrace, List.filter_cons, Ev.ofBatch]

theorem filter_testBatch_eq (e b : Nat) :
    (testBatchTrace e b).filter (Ev.ofBatch .test e b) =
      [.toDevice .test e b, .predict .test e b, .computeUtils .test e b,
       .logPoses .test e b, .errsEval .test e b] := by
  simp [testBatchTrace, List.filter_cons, Ev.ofBatch]

theorem filter_testBatch_ne (sp : Split) (e b e' b' : Nat)
    (h : ¬(sp = .test ∧ e' = e ∧ b' = b)) :
    (testBatchTrace e' b').filter (Ev.ofBatch sp e b) = [] := by
  cases sp
  · simp [testBatchTrace, List.filter_cons, Ev.ofBatch]
  · have h' : ¬(e' = e ∧ b' = b) := fun hc => h ⟨rfl, hc⟩
    simp [testBatchTrace, List.filter_cons, Ev.ofBatch, h']

theorem filter_epochTrace_ne (sp : Split) (e b : Nat) (E : Nat) (lv : Nat → Nat → ℚ)
    (nTr nTe e' : Nat) (h : e' ≠ e) :
    (epochTrace E lv nTr nTe e').filter (Ev.ofBatch sp e b) = [] := by
  have htr : ∀ b', (trainBatchTrace e' b').filter (Ev.ofBatch sp e b) = [] :=
    fun b' => filter_trainBatch_ne sp e b e' b' (fun hc => h hc.2.1)
  have hte : ∀ b', (testBatchTrace e' b').filter (Ev.ofBatch sp e b) = [] :=
    fun b' => filter_testBatch_ne sp e b e' b' (fun hc => h hc.2.1)
  simp only [epochTrace, List.filter_append, List.filter_flatMap, htr, hte]
  rw [flatMap_nil_of_forall _ _ (fun x _ => rfl), flatMap_nil_of_forall _ _ (fun x _ => rfl)]
  simp [List.filter_cons, Ev.ofBatch, apply_ite (List.filter (Ev.ofBatch sp e b))]

theorem filter_epochTrace_train_eq (E : Nat) (lv : Nat → Nat → ℚ) (nTr nTe e b : Nat)
    (hb : b < nTr) :
    (epochTrace E lv nTr nTe e).filter (Ev.ofBatch .train e b) =
      [.zeroGrad e b, .toDevice .train e b, .predict .train e b, .computeUtils .train e b,
       .lossEval e b, .backward e b, .optStep e b, .errsEval .train e b,
       .logPoses .train e b] := by
  have hte : ∀ b', (testBatchTrace e b').filter (Ev.ofBatch .train e b) = [] :=
    fun b' => filter_testBatch_ne .train e b e b' (fun hc => by cases hc.1)
  simp only [epochTrace, List.filter_append, List.filter_flatMap, hte]
  rw [flatMap_eq_of_single _ _ b (List.mem_range.mpr hb) (List.nodup_range nTr)
      (fun b' _ hb' => filter_trainBatch_ne .train e b e b' (fun hc => hb' hc.2.2)),
    flatMap_nil_of_forall _ _ (fun x _ => rfl), filter_trainBatch_eq]
  simp [List.filter_cons, Ev.ofBatch, apply_ite (List.filter (Ev.ofBatch .train e b))]

theorem filter_epochTrace_test_eq (E : Nat) (lv : Nat → Nat → ℚ) (nTr nTe e b : Nat)
    (hb : b < nTe) :
    (epochTrace E lv nTr nTe e).filter (Ev.ofBatch .test e b) =
      [.toDevice .test e b, .predict .test e b, .computeUtils .test e b,
       .logPoses .test e b, .errsEval .test e b] := by
  have htr : ∀ b', (trainBatchTrace e b').filter (Ev.ofBatch .test e b) = [] :=
    fun b' => filter_trainBatch_ne .test e b e b' (fun hc => by cases hc.1)
  simp only [epochTrace, List.filter_append, List.filter_flatMap, htr]
  rw [flatMap_eq_of_single _ _ b (List.mem_range.mpr hb) (List.nodup_range nTe)
      (fun b' _ hb' => filter_testBatch_ne .test e b e b' (fun hc => hb' hc.2.2)),
    flatMap_nil_of_forall _ _ (fun x _ => rfl), filter_testBatch_eq]
  simp [List.filter_cons, Ev.ofBatch, apply_ite (List.filter (Ev.ofBatch .test e b))]

/-- C4: restricting the run trace to the events of one batch (the
filter preserves the global order of events) yields, for a train batch,
exactly `[zero_grad, to_device, predict, batch_compute_utils,
criterion, backward, optimizer.step, batch_errors, log_poses]` and, for
a test batch, exactly `[to_device, predict, batch_compute_utils,
log_poses, batch_errors]`: `batch_compute_utils` runs exactly once per
batch, after the prediction fills `w_t_chat`/`chat_q_w` and strictly
before the criterion evaluation and the `batch_errors` call of that
batch. -/
theorem claim_C4 (a : Args) (lossVal : Nat → Nat → ℚ) (nTrain nTest e b : Nat)
    (he : e < a.epochs) :
    (b < nTrain →
      (runTrace a lossVal nTrain nTest).filter (Ev.ofBatch .train e b) =
        [.zeroGrad e b, .toDevice .train e b, .predict .train e b, .computeUtils .train e b,
         .lossEval e b, .backward e b, .optStep e b, .errsEval .train e b,
         .logPoses .train e b])
    ∧ (b < nTest →
      (runTrace a lossVal nTrain nTest).filter (Ev.ofBatch .test e b) =
        [.toDevice .test e b, .predict .test e b, .computeUtils .test e b,
         .logPoses .test e b, .errsEval .test e b]) := by
  constructor
  · intro hb
    simp only [runTrace, List.filter_append, List.filter_flatMap, List.filter_cons,
      Ev.ofBatch, List.filter_nil]
    rw [flatMap_eq_of_single _ _ e (List.mem_range.mpr he) (List.nodup_range a.epochs)
        (fun e' _ he' => filter_epochTrace_ne .train e b a.epochs lossVal nTrain nTest e' he'),
      filter_epochTrace_train_eq a.epochs lossVal nTrain nTest e b hb]
    rfl
  · intro hb
    simp only [runTrace, List.filter_append, List.filter_flatMap, List.filter_cons,
      Ev.ofBatch, List.filter_nil]
    rw [flatMap_eq_of_single _ _ e (List.mem_range.mpr he) (List.nodup_range a.epochs)
        (fun e' _ he' => filter_epochTrace_ne .test e b a.epochs lossVal nTrain nTest e' he'),
      filter_epochTrace_test_eq a.epochs lossVal nTrain nTest e b hb]
    rfl

/-- Witness for C4: the filtered trace of train batch 0 of epoch 0 in a
concrete one-epoch run. -/
theorem claim_C4_witness :
    (runTrace ⟨"/data/scene", "posenet", 1, 1, 0, 1, none, "cpu"⟩ (fun _ _ => 0) 1 1).filter
        (Ev.ofBatch .train 0 0) =
      [.zeroGrad 0 0, .toDevice .train 0 0, .predict .train 0 0, .computeUtils .train 0 0,
       .lossEval 0 0, .backward 0 0, .optStep 0 0, .errsEval .train 0 0,
       .logPoses .train 0 0] :=
  (claim_C4 ⟨"/data/scene", "posenet", 1, 1, 0, 1, none, "cpu"⟩ (fun _ _ => 0) 1 1 0 0
    (by decide)).1 (by decide)

theorem fileContents_append_of_append_only (rows : Split → Nat → Nat → List String) :
    ∀ (l : List Ev) (s : List String), (∀ m, Ev.openLog m ∈ l → m = "a") →
      ∃ t, l.foldl (fileStep rows) s = s ++ t := by
  intro l
  induction l with
  | nil => intro s h; exact ⟨[], (List.append_nil s).symm⟩
  | cons ev tl ih =>
    intro s h
    have hev : ∃ t', fileStep rows s ev = s ++ t' := by
      cases ev
      case openLog m =>
        have hm : m = "a" := h m (List.mem_cons_self _ _)
        subst hm
        exact ⟨[], by simp [fileStep]⟩
      case writeHeader => exact ⟨[headerLine], rfl⟩
      case logPoses sp e b => exact ⟨rows sp e b, rfl⟩
      all_goals exact ⟨[], (List.append_nil s).symm⟩
    obtain ⟨t', ht'⟩ := hev
    obtain ⟨t, ht⟩ := ih (fileStep rows s ev) (fun m hm => h m (List.mem_cons_of_mem _ hm))
    exact ⟨t' ++ t, by rw [List.foldl_cons, ht, ht', List.append_assoc]⟩

theorem openLog_drop_two (a : Args) (lossVal : Nat → Nat → ℚ) (nTrain nTest : Nat) :
    ∀ m, Ev.openLog m ∈ (runTrace a lossVal nTrain nTest).drop 2 → m = "a" := by
  intro m hm
  simp [runTrace, epochTrace, trainBatchTrace, testBatchTrace] at hm
  tauto

theorem filter_poseWrite_trainBatch_eq (e b : Nat) :
    (trainBatchTrace e b).filter (isPoseWrite .train e b) = [.logPoses .train e b] := by
  simp [trainBatchTrace, List.filter_cons, isPoseWrite]

theorem filter_poseWrite_trainBatch_ne (sp : Split) (e b e' b' : Nat)
    (h : ¬(sp = .train ∧ e' = e ∧ b' = b)) :
    (trainBatchTrace e' b').filter (isPoseWrite sp e b) = [] := by
  cases sp
  · have h' : ¬(e' = e ∧ b' = b) := fun hc => h ⟨rfl, hc⟩
    simp [trainBatchTrace, List.filter_cons, isPoseWrite, h']
  · simp [trainBatchTrace, List.filter_cons, isPoseWrite]

theorem filter_poseWrite_testBatch_eq (e b : Nat) :
    (testBatchTrace e b).filter (isPoseWrite .test e b) = [.logPoses .test e b] := by
  simp [testBatchTrace, List.filter_cons, isPoseWrite]

theorem filter_poseWrite_testBatch_ne (sp : Split) (e b e' b' : Nat)
    (h : ¬(sp = .test ∧ e' = e ∧ b' = b)) :
    (testBatchTrace e' b').filter (isPoseWrite sp e b) = [] := by
  cases sp
  · simp [testBatchTrace, List.filter_cons, isPoseWrite]
  · have h' : ¬(e' = e ∧ b' = b) := fun hc => h ⟨rfl, hc⟩
    simp [testBatchTrace, List.filter_cons, isPoseWrite, h']

theorem filter_poseWrite_epoch_ne (sp : Split) (e b : Nat) (E : Nat) (lv : Nat → Nat → ℚ)
    (nTr nTe e' : Nat) (h : e' ≠ e) :
    (epochTrace E lv nTr nTe e').filter (isPoseWrite sp e b) = [] := by
  have htr : ∀ b', (trainBatchTrace e' b').filter (isPoseWrite sp e b) = [] :=
    fun b' => filter_poseWrite_trainBatch_ne sp e b e' b' (fun hc => h hc.2.1)
  have hte : ∀ b', (testBatchTrace e' b').filter (isPoseWrite sp e b) = [] :=
    fun b' => filter_poseWrite_testBatch_ne sp e b e' b' (fun hc => h hc.2.1)
  simp only [epochTrace, List.filter_append, List.filter_flatMap, htr, hte]
  rw [flatMap_nil_of_forall _ _ (fun x _ => rfl), flatMap_nil_of_forall _ _ (fun x _ => rfl)]
  simp [List.filter_cons, isPoseWrite, apply_ite (List.filter (isPoseWrite sp e b))]

theorem filter_poseWrite_epoch_train (E : Nat) (lv : Nat → Nat → ℚ) (nTr nTe e b : Nat)
    (hb : b < nTr) :
    (epochTrace E lv nTr nTe e).filter (isPoseWrite .train e b) = [.logPoses .train e b] := by
  have hte : ∀ b', (testBatchTrace e b').filter (isPoseWrite .train e b) = [] :=
    fun b' => filter_poseWrite_testBatch_ne .train e b e b' (fun hc => by cases hc.1)
  simp only [epochTrace, List.filter_append, List.filter_flatMap, hte]
  rw [flatMap_eq_of_single _ _ b (List.mem_range.mpr hb) (List.nodup_range nTr)
      (fun b' _ hb' => filter_poseWrite_trainBatch_ne .train e b e b' (fun hc => hb' hc.2.2)),
    flatMap_nil_of_forall _ _ (fun x _ => rfl), filter_poseWrite_trainBatch_eq]
  simp [List.filter_cons, isPoseWrite, apply_ite (List.filter (isPoseWrite .train e b))]

theorem filter_poseWrite_epoch_test (E : Nat) (lv : Nat → Nat → ℚ) (nTr nTe e b : Nat)
    (hb : b < nTe) :
    (epochTrace E lv nTr nTe e).filter (isPoseWrite .test e b) = [.logPoses .test e b] := by
  have htr : ∀ b', (trainBatchTrace e b').filter (isPoseWrite .test e b) = [] :=
    fun b' => filter_poseWrite_trainBatch_ne .test e b e b' (fun hc => by cases hc.1)
  simp only [epochTrace, List.filter_append, List.filter_flatMap, htr]
  rw [flatMap_eq_of_single _ _ b (List.mem_range.mpr hb) (List.nodup_range nTe)
      (fun b' _ hb' => filter_poseWrite_testBatch_ne .test e b e b' (fun hc => hb' hc.2.2)),
    flatMap_nil_of_forall _ _ (fun x _ => rfl), filter_poseWrite_testBatch_eq]
  simp [List.filter_cons, isPoseWrite, apply_ite (List.filter (isPoseWrite .test e b))]

/-- C1: the pose log is created in write mode and its very first write
is the exact header line; every later open of the file is in append
mode (`"a"`); consequently, at every point of the run from creation on,
the first line of the file contents is the bit-exact header; and each
batch of each split writes its poses exactly once.  `rows sp e b` are
the rows `log_poses` writes for that batch. -/
theorem claim_C1 (a : Args) (rows : Split → Nat → Nat → List String)
    (lossVal : Nat → Nat → ℚ) (nTrain nTest : Nat) :
    (runTrace a lossVal nTrain nTest).take 2 = [.openLog "w", .writeHeader]
    ∧ (∀ m, Ev.openLog m ∈ (runTrace a lossVal nTrain nTest).drop 2 → m = "a")
    ∧ (∀ n, 2 ≤ n →
        (fileContents rows ((runTrace a lossVal nTrain nTest).take n)).head? = some headerLine)
    ∧ (∀ e b, e < a.epochs →
        (b < nTrain → (runTrace a lossVal nTrain nTest).filter (isPoseWrite .train e b) =
          [.logPoses .train e b])
        ∧ (b < nTest → (runTrace a lossVal nTrain nTest).filter (isPoseWrite .test e b) =
          [.logPoses .test e b])) := by
  refine ⟨rfl, openLog_drop_two a lossVal nTrain nTest, ?_, ?_⟩
  · intro n hn
    obtain ⟨k, rfl⟩ : ∃ k, n = k + 2 := ⟨n - 2, by omega⟩
    have hsplit : (runTrace a lossVal nTrain nTest).take (k + 2) =
        Ev.openLog "w" :: Ev.writeHeader ::
          ((runTrace a lossVal nTrain nTest).drop 2).take k := rfl
    rw [hsplit]
    have hmem : ∀ m, Ev.openLog m ∈ ((runTrace a lossVal nTrain nTest).drop 2).take k →
        m = "a" :=
      fun m hm => openLog_drop_two a lossVal nTrain nTest m (List.take_subset _ _ hm)
    obtain ⟨t, ht⟩ := fileContents_append_of_append_only rows
      (((runTrace a lossVal nTrain nTest).drop 2).take k) [headerLine] hmem
    unfold fileContents
    rw [List.foldl_cons, List.foldl_cons]
    have hstate : fileStep rows (fileStep rows [] (Ev.openLog "w")) Ev.writeHeader =
        [headerLine] := by simp [fileStep]
    rw [hstate, ht]
    rfl
  · intro e b he
    constructor
    · intro hb
      simp only [runTrace, List.filter_append, List.filter_flatMap, List.filter_cons,
        isPoseWrite, List.filter_nil]
      rw [flatMap_eq_of_single _ _ e (List.mem_range.mpr he) (List.nodup_range a.epochs)
          (fun e' _ he' =>
            filter_poseWrite_epoch_ne .train e b a.epochs lossVal nTrain nTest e' he'),
        filter_poseWrite_epoch_train a.epochs lossVal nTrain nTest e b hb]
      rfl
    · intro hb
      simp only [runTrace, List.filter_append, List.filter_flatMap, List.filter_cons,
        isPoseWrite, List.filter_nil]
      rw [flatMap_eq_of_single _ _ e (List.mem_range.mpr he) (List.nodup_range a.epochs)
          (fun e' _ he' =>
            filter_poseWrite_epoch_ne .test e b a.epochs lossVal nTrain nTest e' he'),
        filter_poseWrite_epoch_test a.epochs lossVal nTrain nTest e b hb]
      rfl

/-- Witness for C1 at a concrete one-epoch run: the header is the first
line of the file after the creating writes, mode `"a"` is the only mode
of later opens, and the test batch 0 pose write appears exactly once. -/
theorem claim_C1_witness :
    (fileContents (fun _ _ _ => ["r"])
        ((runTrace ⟨"/data/scene", "posenet", 1, 1, 0, 1, none, "cpu"⟩
          (fun _ _ => 0) 1 1).take 2)).head? = some headerLine
    ∧ (runTrace ⟨"/data/scene", "posenet", 1, 1, 0, 1, none, "cpu"⟩
        (fun _ _ => 0) 1 1).filter (isPoseWrite .test 0 0) = [.logPoses .test 0 0]
    ∧ "a" = "a" := by
  have h := claim_C1 ⟨"/data/scene", "posenet", 1, 1, 0, 1, none, "cpu"⟩
    (fun _ _ _ => ["r"]) (fun _ _ => 0) 1 1
  refine ⟨h.2.2.1 2 (by decide), (h.2.2.2 0 0 (by decide)).2 (by decide), ?_⟩
  exact h.2.1 "a" (by decide)

end Main

